import Mathlib

/-!
Verification of the virtualized table view component (`tableView.ts`):
the cell cache, the view-row DOM wrapper, the render driver and the
input-event handlers, embedded shallowly from the sources.

The height index (`HeightMap`, imported by the view from `./tableViewModel`)
is not among the sources; its query operations are modelled from the spec
(§4.1/§4.4) and marked as such below.
-/

namespace TableSpec

/-! ### Height index

Modelled from the spec: `HeightMap` of `./tableViewModel` is not present in
the sources, only its caller `TableView.render` is.  The spec defines:
`indexAt(offset)` — largest row index whose cumulative start ≤ offset;
`indexAfter(offset)` — first row index whose cumulative start > offset.
Rows are represented by their pixel heights, oldest first. -/

/-- Cumulative start (top) of row `i`: the sum of the heights of rows `0..i-1`. -/
def cumTop (hs : List ℕ) (i : ℕ) : ℕ := (hs.take i).sum

/-- Modelled from the spec: `indexAt(offset)` — the largest row index whose
cumulative start is ≤ `o` (`0` when there are no rows; row `0` always starts
at offset `0`, so for a nonempty table the result is a valid row index). -/
def indexAt : List ℕ → ℕ → ℕ
  | [], _ => 0
  | [_], _ => 0
  | h :: t, o => if h ≤ o then indexAt t (o - h) + 1 else 0

/-- Modelled from the spec: `indexAfter(offset)` — the first row index whose
cumulative start is > `o`, or the row count when no row starts after `o`. -/
def indexAfter : List ℕ → ℕ → ℕ
  | [], _ => 0
  | [_], _ => 1
  | h :: t, o => if o < h then 1 else indexAfter t (o - h) + 1

/-- Offset `o` falls strictly inside the span of row `i`. -/
def insideSpan (hs : List ℕ) (i o : ℕ) : Prop :=
  i < hs.length ∧ cumTop hs i < o ∧ o < cumTop hs i + hs.getD i 0

instance (hs : List ℕ) (i o : ℕ) : Decidable (insideSpan hs i o) := by
  unfold insideSpan; infer_instance

lemma indexAt_mono (hs : List ℕ) : ∀ {o o' : ℕ}, o ≤ o' → indexAt hs o ≤ indexAt hs o' := by
  induction hs with
  | nil => intro o o' _; simp [indexAt]
  | cons h t ih =>
    intro o o' hoo
    cases t with
    | nil => simp [indexAt]
    | cons x xs =>
      simp only [indexAt]
      by_cases h1 : h ≤ o
      · rw [if_pos h1, if_pos (le_trans h1 hoo)]
        exact Nat.succ_le_succ (ih (Nat.sub_le_sub_right hoo h))
      · rw [if_neg h1]
        exact Nat.zero_le _

lemma indexAt_lt_indexAfter (hs : List ℕ) (o : ℕ) (hne : hs ≠ []) :
    indexAt hs o < indexAfter hs o := by
  induction hs generalizing o with
  | nil => exact absurd rfl hne
  | cons h t ih =>
    cases t with
    | nil => simp [indexAt, indexAfter]
    | cons x xs =>
      simp only [indexAt, indexAfter]
      by_cases h1 : h ≤ o
      · rw [if_pos h1, if_neg (by omega)]
        exact Nat.succ_lt_succ (ih (o - h) (by simp))
      · rw [if_neg h1, if_pos (by omega)]
        omega

lemma indexAt_le_indexAfter (hs : List ℕ) (o : ℕ) : indexAt hs o ≤ indexAfter hs o := by
  cases hs with
  | nil => simp [indexAt, indexAfter]
  | cons h t => exact le_of_lt (indexAt_lt_indexAfter (h :: t) o (by simp))

/-- Sanity check of the spec-modelled `indexAt`: the row it returns does start
at or before the queried offset. -/
lemma cumTop_indexAt_le (hs : List ℕ) (o : ℕ) : cumTop hs (indexAt hs o) ≤ o := by
  induction hs generalizing o with
  | nil => simp [indexAt, cumTop]
  | cons h t ih =>
    cases t with
    | nil => simp [indexAt, cumTop]
    | cons x xs =>
      simp only [indexAt]
      by_cases h1 : h ≤ o
      · rw [if_pos h1]
        have := ih (o := o - h)
        simp only [cumTop, List.take_succ_cons, List.sum_cons] at *
        omega
      · rw [if_neg h1]
        simp [cumTop]

/-- Sanity check of the spec-modelled `indexAt`: it is the largest row index
whose cumulative start is ≤ the queried offset. -/
lemma indexAt_largest (hs : List ℕ) (o j : ℕ) (hj : j < hs.length)
    (hle : cumTop hs j ≤ o) : j ≤ indexAt hs o := by
  induction hs generalizing o j with
  | nil => simp at hj
  | cons h t ih =>
    cases t with
    | nil =>
      simp only [List.length_singleton] at hj
      omega
    | cons x xs =>
      cases j with
      | zero => exact Nat.zero_le _
      | succ j' =>
        simp only [cumTop, List.take_succ_cons, List.sum_cons] at hle
        have hho : h ≤ o := by omega
        simp only [indexAt, if_pos hho]
        have : j' ≤ indexAt (x :: xs) (o - h) := by
          apply ih
          · simpa using Nat.lt_of_succ_lt_succ hj
          · simp only [cumTop]; omega
        omega

/-! ### Render driver (`TableView.render`, part_000 lines 394–430)

The four loops of `render` are embedded as index ranges in program order.
`insertItemInDOM i` / `removeItemFromDOM i` act on the set of attached row
indices; `ViewRow.insertInDOM` is a no-op on an already attached row, and
`removeFromDOM` on an unbound one, so set insertion and erasure are exact. -/

/-- A DOM row operation performed by the render driver. -/
inductive ROp
  | ins (i : ℕ)
  | rem (i : ℕ)
deriving DecidableEq

/-- Effect of one row operation on the set of attached row indices. -/
def rstep (S : Finset ℕ) : ROp → Finset ℕ
  | .ins i => insert i S
  | .rem i => S.erase i

/-- Run a list of row operations, oldest first. -/
def applyOps (S : Finset ℕ) (l : List ROp) : Finset ℕ := l.foldl rstep S

/-- Indices visited by `for (i = hi - 1; i >= lo; i--)`. -/
def descRange (hi lo : ℕ) : List ℕ := (List.range' lo (hi - lo)).reverse

/-- Indices visited by `for (i = lo; i < hi; i++)`. -/
def ascRange (lo hi : ℕ) : List ℕ := List.range' lo (hi - lo)

/-- Row indices passed to `insertItemInDOM` by the two insertion loops of
`TableView.render` (lines 403–410), in program order. -/
def renderInsertIndices (hs : List ℕ) (lastRenderTop lastRenderHeight scrollTop viewHeight : ℕ) :
    List ℕ :=
  let renderTop := scrollTop
  let renderBottom := scrollTop + viewHeight
  let thisRenderBottom := lastRenderTop + lastRenderHeight
  descRange (indexAfter hs renderBottom) (indexAt hs (max thisRenderBottom renderTop)) ++
    descRange (min (indexAt hs lastRenderTop) (indexAfter hs renderBottom))
      (indexAt hs renderTop)

/-- Row indices passed to `removeItemFromDOM` by the two removal loops of
`TableView.render` (lines 412–420), in program order. -/
def renderRemoveIndices (hs : List ℕ) (lastRenderTop lastRenderHeight scrollTop viewHeight : ℕ) :
    List ℕ :=
  let renderTop := scrollTop
  let renderBottom := scrollTop + viewHeight
  let thisRenderBottom := lastRenderTop + lastRenderHeight
  ascRange (indexAt hs lastRenderTop)
      (min (indexAt hs renderTop) (indexAfter hs thisRenderBottom)) ++
    ascRange (max (indexAfter hs renderBottom) (indexAt hs lastRenderTop))
      (indexAfter hs thisRenderBottom)

/-- All row operations of one `render` call, in program order: the two insert
loops, then the two remove loops. -/
def renderOps (hs : List ℕ) (lastRenderTop lastRenderHeight scrollTop viewHeight : ℕ) :
    List ROp :=
  (renderInsertIndices hs lastRenderTop lastRenderHeight scrollTop viewHeight).map ROp.ins ++
    (renderRemoveIndices hs lastRenderTop lastRenderHeight scrollTop viewHeight).map ROp.rem

/-- State touched by `TableView.render`: the rows (through the height index),
the set of attached rows, the row container's `top` style and the previous
render window. -/
structure RenderState where
  heights : List ℕ
  attached : Finset ℕ
  containerTop : ℤ
  lastRenderTop : ℕ
  lastRenderHeight : ℕ
deriving DecidableEq

/-- `TableView.render(scrollTop, viewHeight)` (part_000 lines 394–430).
After the four loops it repositions the row container to
`itemAtIndex(indexAt(renderTop)).top - renderTop` when that item exists
(`itemAtIndex` returns a row exactly for indices below the row count, and the
spec-modelled `indexAt` is a valid index whenever the table is nonempty). -/
def render (s : RenderState) (scrollTop viewHeight : ℕ) : RenderState :=
  let renderTop := scrollTop
  let renderBottom := scrollTop + viewHeight
  let attached :=
    applyOps s.attached (renderOps s.heights s.lastRenderTop s.lastRenderHeight scrollTop viewHeight)
  let containerTop :=
    if s.heights = [] then s.containerTop
    else (cumTop s.heights (indexAt s.heights renderTop) : ℤ) - (renderTop : ℤ)
  { heights := s.heights, attached := attached, containerTop := containerTop,
    lastRenderTop := renderTop, lastRenderHeight := renderBottom - renderTop }

lemma mem_descRange {i hi lo : ℕ} : i ∈ descRange hi lo ↔ lo ≤ i ∧ i < hi := by
  simp only [descRange, List.mem_reverse, List.mem_range'_1]
  omega

lemma mem_ascRange {i lo hi : ℕ} : i ∈ ascRange lo hi ↔ lo ≤ i ∧ i < hi := by
  simp only [ascRange, List.mem_range'_1]
  omega

/-- Within one `render` call, no row index is both inserted and removed. -/
lemma render_disjoint (hs : List ℕ) (lrt lrh st vh : ℕ) :
    ∀ i ∈ renderInsertIndices hs lrt lrh st vh,
      ∀ j ∈ renderRemoveIndices hs lrt lrh st vh, i ≠ j := by
  intro i hi j hj
  have hmono : indexAt hs st ≤ indexAt hs (max (lrt + lrh) st) :=
    indexAt_mono hs (le_max_right _ _)
  simp only [renderInsertIndices, renderRemoveIndices, List.mem_append,
    mem_descRange, mem_ascRange] at hi hj
  omega

/-- Indices of the insert operations of a row-operation list. -/
def insIdx : List ROp → List ℕ
  | [] => []
  | .ins i :: t => i :: insIdx t
  | .rem _ :: t => insIdx t

/-- Indices of the remove operations of a row-operation list. -/
def remIdx : List ROp → List ℕ
  | [] => []
  | .ins _ :: t => remIdx t
  | .rem i :: t => i :: remIdx t

lemma mem_insIdx : ∀ {l : List ROp} {i : ℕ}, i ∈ insIdx l ↔ ROp.ins i ∈ l := by
  intro l i
  induction l with
  | nil => simp [insIdx]
  | cons x t ih =>
    cases x with
    | ins k => simp [insIdx, ih, List.mem_cons]
    | rem k => simp [insIdx, ih, List.mem_cons]

lemma mem_remIdx : ∀ {l : List ROp} {i : ℕ}, i ∈ remIdx l ↔ ROp.rem i ∈ l := by
  intro l i
  induction l with
  | nil => simp [remIdx]
  | cons x t ih =>
    cases x with
    | ins k => simp [remIdx, ih, List.mem_cons]
    | rem k => simp [remIdx, ih, List.mem_cons]

lemma rstep_comm (S : Finset ℕ) (a b : ROp)
    (hab : ∀ i j : ℕ, (a = ROp.ins i ∨ b = ROp.ins i) → (a = ROp.rem j ∨ b = ROp.rem j) → i ≠ j) :
    rstep (rstep S a) b = rstep (rstep S b) a := by
  cases a with
  | ins i =>
    cases b with
    | ins j =>
      simp only [rstep]
      exact Finset.Insert.comm j i S
    | rem j =>
      have hne : i ≠ j := hab i j (Or.inl rfl) (Or.inr rfl)
      simp only [rstep]
      ext a
      by_cases ha : a = i
      · simp [ha, hne]
      · simp [ha]
  | rem i =>
    cases b with
    | ins j =>
      have hne : j ≠ i := hab j i (Or.inr rfl) (Or.inl rfl)
      simp only [rstep]
      ext a
      by_cases ha : a = j
      · simp [ha, hne]
      · simp [ha]
    | rem j =>
      simp only [rstep]
      ext a
      simp only [Finset.mem_erase]
      tauto

/-- Reordering a list of row operations whose insert indices and remove
indices are disjoint does not change the resulting set of attached rows. -/
lemma applyOps_perm {l₁ l₂ : List ROp} (hp : l₁.Perm l₂) :
    (∀ i ∈ insIdx l₁, ∀ j ∈ remIdx l₁, i ≠ j) → ∀ S : Finset ℕ, applyOps S l₁ = applyOps S l₂ := by
  induction hp with
  | nil => intro _ S; rfl
  | cons x hp ih =>
    intro hd S
    simp only [applyOps, List.foldl_cons] at *
    refine ih (fun i hi j hj => hd i ?_ j ?_) (rstep S x)
    · exact mem_insIdx.mpr (List.mem_cons_of_mem x (mem_insIdx.mp hi))
    · exact mem_remIdx.mpr (List.mem_cons_of_mem x (mem_remIdx.mp hj))
  | swap x y l =>
    intro hd S
    simp only [applyOps, List.foldl_cons]
    rw [rstep_comm S y x]
    intro i j hi hj
    refine hd i ?_ j ?_
    · rcases hi with h | h <;> rw [mem_insIdx, h] <;> simp [List.mem_cons]
    · rcases hj with h | h <;> rw [mem_remIdx, h] <;> simp [List.mem_cons]
  | trans hp₁ hp₂ ih₁ ih₂ =>
    intro hd S
    rw [ih₁ hd S]
    refine ih₂ (fun i hi j hj => hd i ?_ j ?_) S
    · exact mem_insIdx.mpr (hp₁.mem_iff.mpr (mem_insIdx.mp hi))
    · exact mem_remIdx.mpr (hp₁.mem_iff.mpr (mem_remIdx.mp hj))

lemma insIdx_renderOps (hs : List ℕ) (lrt lrh st vh : ℕ) :
    insIdx (renderOps hs lrt lrh st vh) = renderInsertIndices hs lrt lrh st vh := by
  have h1 : ∀ l : List ℕ, insIdx (l.map ROp.ins) = l := by
    intro l; induction l with
    | nil => rfl
    | cons a t ih => simp [insIdx, ih]
  have h2 : ∀ l : List ℕ, insIdx (l.map ROp.rem) = [] := by
    intro l; induction l with
    | nil => rfl
    | cons a t ih => simp [insIdx, ih]
  have happ : ∀ l l' : List ROp, insIdx (l ++ l') = insIdx l ++ insIdx l' := by
    intro l l'
    induction l with
    | nil => rfl
    | cons x t ih => cases x <;> simp [insIdx, ih]
  simp [renderOps, happ, h1, h2]

lemma remIdx_renderOps (hs : List ℕ) (lrt lrh st vh : ℕ) :
    remIdx (renderOps hs lrt lrh st vh) = renderRemoveIndices hs lrt lrh st vh := by
  have h1 : ∀ l : List ℕ, remIdx (l.map ROp.rem) = l := by
    intro l; induction l with
    | nil => rfl
    | cons a t ih => simp [remIdx, ih]
  have h2 : ∀ l : List ℕ, remIdx (l.map ROp.ins) = [] := by
    intro l; induction l with
    | nil => rfl
    | cons a t ih => simp [remIdx, ih]
  have happ : ∀ l l' : List ROp, remIdx (l ++ l') = remIdx l ++ remIdx l' := by
    intro l l'
    induction l with
    | nil => rfl
    | cons x t ih => cases x <;> simp [remIdx, ih]
  simp [renderOps, happ, h1, h2]

/-! ### Cell cache (`CellCache`, part_000 lines 36–91) and view rows

Wrappers (`ICell`s) are identified by numeric ids; a wrapper's id also stands
for its `element` and its `templateData`.  The JS object `_cache` is an
association list in key-insertion order; a pool array's `push`/`pop` end is
the head of the Lean list.  Renderer hooks (`renderTemplate`,
`disposeTemplate`), the `ViewRow.render` callback and the fallback warning
are recorded in an effect log; DOM attachment is the child list of the row
container (`release`'s `removeFromParent` erases from it — a throw on a
detached element is swallowed, i.e. erasing a non-member is a no-op). -/

abbrev TemplateId := ℕ

abbrev Wrapper := ℕ

/-- Observable effects of the cache, renderer hooks and view rows. -/
inductive Eff
  | renderTemplateEv (tid : TemplateId) (w : Wrapper)
  | disposeTemplateEv (tid : TemplateId) (w : Wrapper)
  | renderRowEv (w : Wrapper)
  | warnEv
deriving DecidableEq

/-- `this._cache[templateId]`, `[]` when the key is absent (JS `undefined`
pools are materialized as `[]` by `cache()` before use). -/
def dictGet : List (TemplateId × List Wrapper) → TemplateId → List Wrapper
  | [], _ => []
  | e :: t, k => if e.1 = k then e.2 else dictGet t k

/-- Update or append (preserving JS object key-insertion order) the pool of a
template id. -/
def dictSet : List (TemplateId × List Wrapper) → TemplateId → List Wrapper →
    List (TemplateId × List Wrapper)
  | [], k, ws => [(k, ws)]
  | e :: t, k, ws => if e.1 = k then (k, ws) :: t else e :: dictSet t k ws

/-- State of the view: the cell cache's pools, the id supply for newly
constructed cells, the row container's DOM children and the effect log. -/
structure ViewState where
  _cache : List (TemplateId × List Wrapper)
  nextId : ℕ
  children : List Wrapper
  log : List Eff
deriving DecidableEq

/-- `CellCache`'s constructor state: `this._cache = { '': [] }` (the empty
template id is numbered `0`). -/
def initialState : ViewState :=
  { _cache := [(0, [])], nextId := 0, children := [], log := [] }

/-- `CellCache.alloc(templateId)` (lines 43–61): pop a pooled wrapper of the
kind, or construct a new cell through `renderer.renderTemplate`.  `cache()`
materializes a missing pool as `[]` either way; the pure pool lookup touches
neither the DOM child list nor the effect log. -/
def CellCache.alloc (s : ViewState) (templateId : TemplateId) : Wrapper × ViewState :=
  match dictGet s._cache templateId with
  | [] =>
      (s.nextId,
        { s with _cache := dictSet s._cache templateId [],
                 nextId := s.nextId + 1,
                 log := s.log ++ [Eff.renderTemplateEv templateId s.nextId] })
  | w :: rest =>
      (w, { s with _cache := dictSet s._cache templateId rest })

/-- `CellCache.release(templateId, row)` (lines 63–66): `removeFromParent`
detaches the element (erase from the container's children; a throw on an
unattached element is swallowed), then the wrapper is pushed onto the pool. -/
def CellCache.release (s : ViewState) (templateId : TemplateId) (w : Wrapper) : ViewState :=
  { s with _cache := dictSet s._cache templateId (w :: dictGet s._cache templateId),
           children := s.children.erase w }

/-- `disposeTemplate` events emitted by `garbageCollect` for one cache, in
iteration order (`forEach` walks each pool array from its oldest element,
which is the tail end of our head-is-top list). -/
def disposals : List (TemplateId × List Wrapper) → List Eff
  | [] => []
  | e :: t => (e.2.reverse.map fun w => Eff.disposeTemplateEv e.1 w) ++ disposals t

/-- `CellCache.garbageCollect()` (lines 72–84): every pooled wrapper's
template data is passed to `renderer.disposeTemplate` and every key is
deleted.  (The `if (this._cache)` guard only matters after `dispose()`, which
nulls the cache and is outside the modelled lifecycle.) -/
def CellCache.garbageCollect (s : ViewState) : ViewState :=
  { s with _cache := [], log := s.log ++ disposals s._cache }

/-- One client call into the cache: an `alloc` of a kind, or a `release` of a
wrapper under a kind. -/
inductive CacheOp
  | aOp (tid : TemplateId)
  | rOp (tid : TemplateId) (w : Wrapper)
deriving DecidableEq

/-- Run a sequence of cache calls (the wrapper returned by `alloc` goes to
the client; `release` hands one back). -/
def crun (s : ViewState) : List CacheOp → ViewState
  | [] => s
  | CacheOp.aOp tid :: t => crun (CellCache.alloc s tid).2 t
  | CacheOp.rOp tid w :: t => crun (CellCache.release s tid w) t

/-- A call sequence is valid when every `release` of kind `tid` happens while
at least one `tid`-wrapper is checked out (`out` counts checked-out wrappers
per kind). -/
def cvalid (out : TemplateId → ℕ) : List CacheOp → Bool
  | [] => true
  | CacheOp.aOp tid :: t => cvalid (fun k => if k = tid then out k + 1 else out k) t
  | CacheOp.rOp tid _ :: t =>
      decide (0 < out tid) && cvalid (fun k => if k = tid then out k - 1 else out k) t

/-- Running maximum of the number of simultaneously checked-out wrappers of
kind `tid` along a call sequence (`cur` current count, `m` maximum so far). -/
def maxOutAux (tid : TemplateId) (cur m : ℕ) : List CacheOp → ℕ
  | [] => m
  | CacheOp.aOp tid' :: t =>
      maxOutAux tid (if tid = tid' then cur + 1 else cur)
        (max m (if tid = tid' then cur + 1 else cur)) t
  | CacheOp.rOp tid' _ :: t =>
      maxOutAux tid (if tid = tid' then cur - 1 else cur) m t

/-- Maximum number of `tid`-wrappers simultaneously in use at any point of a
call sequence. -/
def maxInUse (tid : TemplateId) (ops : List CacheOp) : ℕ := maxOutAux tid 0 0 ops

lemma dictGet_dictSet_self (c : List (TemplateId × List Wrapper)) (k : TemplateId)
    (ws : List Wrapper) : dictGet (dictSet c k ws) k = ws := by
  induction c with
  | nil => simp [dictGet, dictSet]
  | cons e t ih =>
    by_cases h : e.1 = k
    · simp [dictGet, dictSet, h]
    · simp [dictGet, dictSet, h, ih]

lemma dictGet_dictSet_ne (c : List (TemplateId × List Wrapper)) {k k' : TemplateId}
    (h : k' ≠ k) (ws : List Wrapper) : dictGet (dictSet c k' ws) k = dictGet c k := by
  induction c with
  | nil => simp [dictGet, dictSet, h]
  | cons e t ih =>
    by_cases he : e.1 = k'
    · simp [dictGet, dictSet, he, h]
    · simp only [dictSet, if_neg he, dictGet]
      by_cases hek : e.1 = k
      · simp [hek]
      · simp [hek, ih]

lemma dictGet_initialState (tid : TemplateId) : dictGet initialState._cache tid = [] := by
  by_cases h : (0 : TemplateId) = tid <;> simp [initialState, dictGet, h]

/-- Induction invariant for the pool-size bound: if the pooled plus
checked-out `tid`-wrappers are bounded by `m`, the bound follows the running
maximum through any valid call sequence. -/
lemma crun_pool_bound :
    ∀ (ops : List CacheOp) (s : ViewState) (out : TemplateId → ℕ) (tid : TemplateId) (m : ℕ),
      cvalid out ops = true →
      (dictGet s._cache tid).length + out tid ≤ m →
      (dictGet (crun s ops)._cache tid).length ≤ maxOutAux tid (out tid) m ops := by
  intro ops
  induction ops with
  | nil =>
    intro s out tid m _ hle
    simp only [crun, maxOutAux]
    omega
  | cons op t ih =>
    intro s out tid m hv hle
    cases op with
    | aOp tid' =>
      simp only [cvalid] at hv
      simp only [crun, maxOutAux]
      rcases hpool : dictGet s._cache tid' with _ | ⟨w, rest⟩ <;>
        simp only [CellCache.alloc, hpool] <;>
        refine ih _ (fun k => if k = tid' then out k + 1 else out k) tid _ hv ?_ <;>
        simp only [] <;>
        by_cases h : tid = tid'
      · subst h
        rw [dictGet_dictSet_self]
        simp only [eq_self_iff_true, if_true, List.length_nil]
        omega
      · rw [dictGet_dictSet_ne _ (fun he => h he.symm) _]
        simp only [if_neg h]
        omega
      · subst h
        rw [dictGet_dictSet_self]
        rw [hpool] at hle
        simp only [eq_self_iff_true, if_true, List.length_cons] at hle ⊢
        omega
      · rw [dictGet_dictSet_ne _ (fun he => h he.symm) _]
        simp only [if_neg h]
        omega
    | rOp tid' w =>
      simp only [cvalid, Bool.and_eq_true, decide_eq_true_eq] at hv
      obtain ⟨hpos, hv⟩ := hv
      simp only [crun, maxOutAux, CellCache.release]
      refine ih _ (fun k => if k = tid' then out k - 1 else out k) tid _ hv ?_
      simp only []
      by_cases h : tid = tid'
      · subst h
        rw [dictGet_dictSet_self]
        simp only [eq_self_iff_true, if_true, List.length_cons]
        omega
      · rw [dictGet_dictSet_ne _ (fun he => h he.symm) _]
        simp only [if_neg h]
        omega

/-- Every wrapper found in a pool after a run was pushed there by some
`release` of that kind during the run (pools only ever gain wrappers through
`release`). -/
lemma pool_mem_release :
    ∀ (ops : List CacheOp) (s : ViewState) (tid : TemplateId) (w : Wrapper),
      w ∈ dictGet (crun s ops)._cache tid →
      w ∈ dictGet s._cache tid ∨ CacheOp.rOp tid w ∈ ops := by
  intro ops
  induction ops with
  | nil => intro s tid w h; exact Or.inl h
  | cons op t ih =>
    intro s tid w hmem
    cases op with
    | aOp tid' =>
      simp only [crun] at hmem
      rcases ih _ tid w hmem with h | h
      · rcases hpool : dictGet s._cache tid' with _ | ⟨w', rest⟩ <;>
          simp only [CellCache.alloc, hpool] at h <;>
          by_cases he : tid' = tid
        · subst he; rw [dictGet_dictSet_self] at h; simp at h
        · rw [dictGet_dictSet_ne _ (fun x => he x) _] at h
          exact Or.inl h
        · subst he
          rw [dictGet_dictSet_self] at h
          exact Or.inl (by rw [hpool]; exact List.mem_cons_of_mem _ h)
        · rw [dictGet_dictSet_ne _ (fun x => he x) _] at h
          exact Or.inl h
      · exact Or.inr (List.mem_cons_of_mem _ h)
    | rOp tid' w' =>
      simp only [crun] at hmem
      rcases ih _ tid w hmem with h | h
      · simp only [CellCache.release] at h
        by_cases he : tid' = tid
        · subst he
          rw [dictGet_dictSet_self] at h
          rcases List.mem_cons.mp h with h | h
          · exact Or.inr (by rw [h]; exact List.mem_cons_self _ _)
          · exact Or.inl h
        · rw [dictGet_dictSet_ne _ (fun x => he x) _] at h
          exact Or.inl h
      · exact Or.inr (List.mem_cons_of_mem _ h)

lemma count_map_dispose (tid : TemplateId) (l : List Wrapper) (w : Wrapper) :
    (l.map fun w' => Eff.disposeTemplateEv tid w').count (Eff.disposeTemplateEv tid w) =
      l.count w := by
  induction l with
  | nil => rfl
  | cons a t ih =>
    simp only [List.map_cons, List.count_cons, ih, Eff.disposeTemplateEv.injEq]
    by_cases h : a = w <;> simp [h]

lemma count_disposals_of_not_mem (c : List (TemplateId × List Wrapper)) (tid : TemplateId)
    (w : Wrapper) (h : tid ∉ c.map Prod.fst) :
    (disposals c).count (Eff.disposeTemplateEv tid w) = 0 := by
  induction c with
  | nil => rfl
  | cons e t ih =>
    simp only [List.map_cons, List.mem_cons] at h
    push_neg at h
    simp only [disposals, List.count_append]
    rw [ih h.2]
    have : Eff.disposeTemplateEv tid w ∉ e.2.reverse.map fun w' => Eff.disposeTemplateEv e.1 w' := by
      intro hmem
      rcases List.mem_map.mp hmem with ⟨w', _, heq⟩
      exact h.1 (by injection heq with h1 _; exact h1.symm)
    rw [List.count_eq_zero.mpr this]

/-- With the JS object's unique keys, `garbageCollect` emits exactly one
`disposeTemplate` per occurrence of a wrapper in the pool of its kind. -/
lemma count_disposals (c : List (TemplateId × List Wrapper)) (tid : TemplateId) (w : Wrapper)
    (hnd : (c.map Prod.fst).Nodup) :
    (disposals c).count (Eff.disposeTemplateEv tid w) = (dictGet c tid).count w := by
  induction c with
  | nil => rfl
  | cons e t ih =>
    simp only [List.map_cons, List.nodup_cons] at hnd
    simp only [disposals, List.count_append, dictGet]
    by_cases h : e.1 = tid
    · subst h
      rw [if_pos rfl, count_map_dispose, List.count_reverse,
        count_disposals_of_not_mem t e.1 w hnd.1]
      omega
    · rw [if_neg h, ih hnd.2]
      have : Eff.disposeTemplateEv tid w ∉ e.2.reverse.map fun w' => Eff.disposeTemplateEv e.1 w' := by
        intro hmem
        rcases List.mem_map.mp hmem with ⟨w', _, heq⟩
        simp only [Eff.disposeTemplateEv.injEq] at heq
        exact h heq.1
      rw [List.count_eq_zero.mpr this]
      omega

/-! ### View rows (`ViewRow`, part_000 lines 97–167)

A `ViewRow` holds an optional bound wrapper (`this.row`, `null` when
unbound) and its cached template id.  `insertInDOM(container, afterElement)`
allocates a wrapper on demand, returns early when the element already has a
parent, otherwise appends (`afterElement === null`) or inserts before the
given sibling — falling back to append with a console warning when
`insertBefore` throws because the sibling is not in the tree — and finally
triggers the render callback.  `removeFromDOM` releases the wrapper. -/

structure ViewRow where
  row : Option Wrapper
  templateId : TemplateId
deriving DecidableEq

/-- `container.insertBefore(el, ref)` on the child list when `ref` is
present: insert `w` immediately before the first occurrence of `ref`. -/
def insertBeforeL (l : List Wrapper) (w ref : Wrapper) : List Wrapper :=
  match l with
  | [] => []
  | x :: xs => if x = ref then w :: x :: xs else x :: insertBeforeL xs w ref

/-- `ViewRow.insertInDOM(container, afterElement)` (lines 127–151). -/
def ViewRow.insertInDOM (vr : ViewRow) (s : ViewState) (afterElement : Option Wrapper) :
    ViewRow × ViewState :=
  let p : ViewRow × ViewState × Wrapper :=
    match vr.row with
    | some w => (vr, s, w)
    | none =>
        let aw := CellCache.alloc s vr.templateId
        ({ vr with row := some aw.1 }, aw.2, aw.1)
  if p.2.2 ∈ p.2.1.children then
    (p.1, p.2.1)
  else
    let s' :=
      match afterElement with
      | none => { p.2.1 with children := p.2.1.children ++ [p.2.2] }
      | some ref =>
          if ref ∈ p.2.1.children then
            { p.2.1 with children := insertBeforeL p.2.1.children p.2.2 ref }
          else
            { p.2.1 with children := p.2.1.children ++ [p.2.2],
                         log := p.2.1.log ++ [Eff.warnEv] }
    (p.1, { s' with log := s'.log ++ [Eff.renderRowEv p.2.2] })

/-- `ViewRow.removeFromDOM()` (lines 153–161). -/
def ViewRow.removeFromDOM (vr : ViewRow) (s : ViewState) : ViewRow × ViewState :=
  match vr.row with
  | none => (vr, s)
  | some w => ({ vr with row := none }, CellCache.release s vr.templateId w)

/-- A model row as seen by `ViewRow`'s constructor: identity, height and
presentation traits. -/
structure RowModel where
  id : ℕ
  height : ℕ
  traits : List ℕ
deriving DecidableEq

/-- The fields `ViewRow`'s constructor tries to initialize. -/
structure ViewRowInit where
  id : ℕ
  top : ℕ
  height : ℕ
  styles : List ℕ
deriving DecidableEq

/-- `ViewRow`'s constructor (part_000 lines 112–121).  Its second parameter
is declared as the single identifier `privatemodel` — not a `private model`
parameter property — so it is a plain constructor argument: no `model`
property is created from it, and the declared field `public model: Model.Row`
is never assigned.  Every read of `this.model` in the body therefore sees
`undefined` (modelled as `none`), and the body's first read,
`this.model.id`, faults: the construction never produces initialized
fields. -/
def ViewRow.construct (privatemodel : RowModel) : Option ViewRowInit := do
  let thisModel : Option RowModel := none
  let m ← thisModel
  pure { id := m.id, top := 0, height := m.height, styles := m.traits }

/-! ### Input-event handlers (`TableView`, part_000 lines 441–443, 572–644,
686–694)

Each handler resolves the event's target cell through `getCellAround` and
returns early when no cell is found; the value a handler produces here is
the list of controller callbacks it invokes. -/

/-- The view cell a handler would resolve an event target to. -/
structure ViewCellM where
  modelElement : ℕ
deriving DecidableEq

/-- `TableView.getCellAround(element)` (lines 441–443): the body is
`return undefined;`. -/
def TableView.getCellAround (element : ℕ) : Option ViewCellM := none

/-- Pointer kinds recorded by `onMsPointerDown`. -/
inductive PtrType
  | mouse
  | touch
deriving DecidableEq

/-- Controller callbacks a handler can invoke. -/
inductive CtrlCall
  | mouseDownCall (el : ℕ)
  | mouseUpCall (el : ℕ)
  | clickCall (el : ℕ)
  | tapCall (el : ℕ)
deriving DecidableEq

/-- The view state and environment a handler consults before resolving the
target cell. -/
structure HandlerCtx where
  hasMouseDown : Bool
  hasMouseUp : Bool
  lastPointerType : Option PtrType
  isNative : Bool
  isMacintosh : Bool
  isIE : Bool
deriving DecidableEq

/-- A standard mouse event as the handlers consume it. -/
structure MouseEv where
  target : ℕ
  ctrlKey : Bool
deriving DecidableEq

/-- `TableView.onMouseDown` (lines 572–596). -/
def TableView.onMouseDown (cx : HandlerCtx) (e : MouseEv) : List CtrlCall :=
  if !cx.hasMouseDown then []
  else if cx.lastPointerType.isSome ∧ cx.lastPointerType ≠ some PtrType.mouse then []
  else if e.ctrlKey && cx.isNative && cx.isMacintosh then []
  else
    match TableView.getCellAround e.target with
    | none => []
    | some item => [CtrlCall.mouseDownCall item.modelElement]

/-- `TableView.onMouseUp` (lines 598–620). -/
def TableView.onMouseUp (cx : HandlerCtx) (e : MouseEv) : List CtrlCall :=
  if !cx.hasMouseUp then []
  else if cx.lastPointerType.isSome ∧ cx.lastPointerType ≠ some PtrType.mouse then []
  else if e.ctrlKey && cx.isNative && cx.isMacintosh then []
  else
    match TableView.getCellAround e.target with
    | none => []
    | some item => [CtrlCall.mouseUpCall item.modelElement]

/-- `TableView.onClick` (lines 622–644); the IE double-click bookkeeping
sits after the early return on a missing cell. -/
def TableView.onClick (cx : HandlerCtx) (e : MouseEv) : List CtrlCall :=
  if cx.lastPointerType.isSome ∧ cx.lastPointerType ≠ some PtrType.mouse then []
  else
    match TableView.getCellAround e.target with
    | none => []
    | some item => [CtrlCall.clickCall item.modelElement]

/-- `TableView.onTap` (lines 686–694). -/
def TableView.onTap (initialTarget : ℕ) : List CtrlCall :=
  match TableView.getCellAround initialTarget with
  | none => []
  | some item => [CtrlCall.tapCall item.modelElement]

/-! ### Claim theorems -/

/-- The table of claim C1: rows 0–10 of 20px each, rows 0–9 attached,
previous render window `[0, 200)`. -/
def c1State : RenderState :=
  { heights := List.replicate 11 20, attached := Finset.range 10, containerTop := 0,
    lastRenderTop := 0, lastRenderHeight := 200 }

/-- C1 (counterexample): rendering the claimed table at `scrollTop = 205`,
`viewportHeight = 200` does not leave rows 1–10 attached and does not remove
only row 0 — the old window `[0, 200)` and the new one `[205, 405)` are
disjoint, so rows 0–9 are all removed and only row 10 stays. -/
theorem c1_counterexample :
    ¬ ((render c1State 205 200).attached = Finset.Icc 1 10 ∧
        renderRemoveIndices c1State.heights c1State.lastRenderTop c1State.lastRenderHeight
          205 200 = [0]) := by
  decide

/-- C1 (amended): with rows 0–10 of 20px each rendered as rows 0–9 over the
window `[0, 200)`, a render at `scrollTop = 25` (the offset at which the
claimed outcome actually occurs), `viewportHeight = 200` inserts exactly row
10, removes exactly row 0, leaves rows 1–10 attached and sets the row
container's top to `-5`; and in general, for a nonempty table, a render call
sets the container top to the cumulative top of the row at
`indexAt(scrollTop)` minus the new scroll top. -/
theorem c1_render_scenario_and_reposition :
    ((render c1State 25 200).attached = Finset.Icc 1 10 ∧
      renderInsertIndices c1State.heights c1State.lastRenderTop c1State.lastRenderHeight
        25 200 = [10] ∧
      renderRemoveIndices c1State.heights c1State.lastRenderTop c1State.lastRenderHeight
        25 200 = [0] ∧
      (render c1State 25 200).containerTop = -5) ∧
    ∀ (s : RenderState) (scrollTop viewHeight : ℕ), s.heights ≠ [] →
      (render s scrollTop viewHeight).containerTop =
        (cumTop s.heights (indexAt s.heights scrollTop) : ℤ) - (scrollTop : ℤ) := by
  constructor
  · decide
  · intro s scrollTop viewHeight h
    simp [render, h]

/-- C1 (witness): the repositioning rule applied to the concrete table at
`scrollTop = 25`. -/
theorem c1_witness :
    (render c1State 25 200).containerTop =
      (cumTop c1State.heights (indexAt c1State.heights 25) : ℤ) - ((25 : ℕ) : ℤ) :=
  c1_render_scenario_and_reposition.2 c1State 25 200 (by decide)

/-- C2: for every previous render window and every new scroll position and
viewport height, the row indices passed to `insertItemInDOM` and those
passed to `removeItemFromDOM` within one `render` call are disjoint, and any
reordering of the call's insert/remove operations produces the same final
set of attached rows. -/
theorem c2_disjoint_and_order_independent (hs : List ℕ) (lrt lrh st vh : ℕ) :
    (∀ i ∈ renderInsertIndices hs lrt lrh st vh,
        ∀ j ∈ renderRemoveIndices hs lrt lrh st vh, i ≠ j) ∧
    ∀ l : List ROp, l.Perm (renderOps hs lrt lrh st vh) →
      ∀ S : Finset ℕ, applyOps S l = applyOps S (renderOps hs lrt lrh st vh) := by
  refine ⟨render_disjoint hs lrt lrh st vh, ?_⟩
  intro l hp S
  have hd : ∀ i ∈ insIdx (renderOps hs lrt lrh st vh),
      ∀ j ∈ remIdx (renderOps hs lrt lrh st vh), i ≠ j := by
    rw [insIdx_renderOps, remIdx_renderOps]
    exact render_disjoint hs lrt lrh st vh
  exact (applyOps_perm hp.symm hd S).symm

/-- C2 (witness): a transposed operation order on a two-row table yields the
same attached set. -/
theorem c2_witness :
    applyOps ∅ [ROp.ins 0, ROp.ins 1] = applyOps ∅ (renderOps [20, 20] 0 0 0 40) :=
  (c2_disjoint_and_order_independent [20, 20] 0 0 0 40).2 [ROp.ins 0, ROp.ins 1] (by decide) ∅

/-- C3 (counterexample): offset 10 falls strictly inside row 0's span in a
table of two 20px rows, yet `indexAfter` and `indexAt` differ there — so
"equal exactly when the offset is strictly inside a row's span" is false. -/
theorem c3_counterexample :
    insideSpan [20, 20] 0 10 ∧ indexAfter [20, 20] 10 ≠ indexAt [20, 20] 10 := by
  decide

/-- C3 (amended): `indexAfter(offset)` is always ≥ `indexAt(offset)`, and is
strictly greater whenever the table has any row (so the two are never equal
at an offset inside a row's span; they coincide only on an empty table). -/
theorem c3_indexAfter_ge_indexAt (hs : List ℕ) (o : ℕ) :
    indexAt hs o ≤ indexAfter hs o ∧ (hs ≠ [] → indexAt hs o < indexAfter hs o) :=
  ⟨indexAt_le_indexAfter hs o, indexAt_lt_indexAfter hs o⟩

/-- C3 (witness): the strict inequality on a concrete nonempty table. -/
theorem c3_witness : indexAt [20, 20] 10 < indexAfter [20, 20] 10 :=
  (c3_indexAfter_ge_indexAt [20, 20] 10).2 (by decide)

/-- C4: along any valid interleaving of `alloc`/`release` calls (every
release hands back a checked-out wrapper of its kind), the pool of a
template kind never holds more wrappers than the maximum number of wrappers
of that kind simultaneously checked out at any earlier point. -/
theorem c4_pool_bounded_by_max_in_use (ops : List CacheOp) (tid : TemplateId)
    (hv : cvalid (fun _ => 0) ops = true) :
    (dictGet (crun initialState ops)._cache tid).length ≤ maxInUse tid ops :=
  crun_pool_bound ops initialState (fun _ => 0) tid 0 hv (by simp [dictGet_initialState])

/-- C4 (witness): two wrappers out at the peak, and the pool never exceeds
two. -/
theorem c4_witness :
    (dictGet (crun initialState
        [CacheOp.aOp 3, CacheOp.aOp 3, CacheOp.rOp 3 0, CacheOp.rOp 3 1,
          CacheOp.aOp 3, CacheOp.rOp 3 1])._cache 3).length ≤
      maxInUse 3
        [CacheOp.aOp 3, CacheOp.aOp 3, CacheOp.rOp 3 0, CacheOp.rOp 3 1,
          CacheOp.aOp 3, CacheOp.rOp 3 1] :=
  c4_pool_bounded_by_max_in_use _ 3 (by decide)

/-- C5: after `garbageCollect()` the cache holds no pool for any template
kind, its effect log extends the old one by exactly the `disposeTemplate`
events of the previously pooled wrappers, and (keys of a JS object being
unique) each pooled wrapper's template data is disposed exactly as often as
it sat in its kind's pool — once for a wrapper pooled once. -/
theorem c5_garbageCollect_empties_and_disposes_once (s : ViewState) (tid : TemplateId)
    (w : Wrapper) :
    (CellCache.garbageCollect s)._cache = [] ∧
    dictGet (CellCache.garbageCollect s)._cache tid = [] ∧
    (CellCache.garbageCollect s).log = s.log ++ disposals s._cache ∧
    ((s._cache.map Prod.fst).Nodup →
      (disposals s._cache).count (Eff.disposeTemplateEv tid w) =
        (dictGet s._cache tid).count w) :=
  ⟨rfl, rfl, rfl, fun hnd => count_disposals s._cache tid w hnd⟩

/-- The cache state of claim C5's witness: wrappers 5, 6 pooled under kind 1
and wrapper 7 under kind 2. -/
def c5State : ViewState :=
  { _cache := [(1, [5, 6]), (2, [7])], nextId := 8, children := [], log := [] }

/-- C5 (witness): garbage collection of a concrete two-kind cache. -/
theorem c5_witness :
    (CellCache.garbageCollect c5State)._cache = [] ∧
    (disposals c5State._cache).count (Eff.disposeTemplateEv 1 5) =
      (dictGet c5State._cache 1).count 5 :=
  ⟨(c5_garbageCollect_empties_and_disposes_once c5State 1 5).1,
    (c5_garbageCollect_empties_and_disposes_once c5State 1 5).2.2.2 (by decide)⟩

/-- C6: `alloc` pops and returns the pooled wrapper of the requested kind
when that pool is non-empty — touching neither the DOM child list nor the
effect log — and otherwise returns a fresh wrapper constructed through
`renderTemplate`; `release` detaches the wrapper's element from the
container and pushes the wrapper onto its kind's pool; and every wrapper
sitting in a pool got there through an earlier `release` of that kind. -/
theorem c6_alloc_release (s : ViewState) (tid : TemplateId) (w : Wrapper)
    (rest : List Wrapper) :
    (dictGet s._cache tid = w :: rest →
      CellCache.alloc s tid = (w, { s with _cache := dictSet s._cache tid rest })) ∧
    (dictGet s._cache tid = [] →
      CellCache.alloc s tid =
        (s.nextId, { s with _cache := dictSet s._cache tid [],
                            nextId := s.nextId + 1,
                            log := s.log ++ [Eff.renderTemplateEv tid s.nextId] })) ∧
    (CellCache.release s tid w =
      { s with _cache := dictSet s._cache tid (w :: dictGet s._cache tid),
               children := s.children.erase w }) ∧
    (∀ ops : List CacheOp, w ∈ dictGet (crun initialState ops)._cache tid →
      CacheOp.rOp tid w ∈ ops) := by
  refine ⟨?_, ?_, rfl, ?_⟩
  · intro h
    simp [CellCache.alloc, h]
  · intro h
    simp [CellCache.alloc, h]
  · intro ops hmem
    rcases pool_mem_release ops initialState tid w hmem with h | h
    · rw [dictGet_initialState] at h
      simp at h
    · exact h

/-- The cache state of claim C6's witness: wrappers 4, 3 pooled under
kind 1. -/
def c6State : ViewState :=
  { _cache := [(0, []), (1, [4, 3])], nextId := 9, children := [], log := [] }

/-- C6 (witness): a pooled alloc, a constructing alloc, and a pooled wrapper
traced back to its release. -/
theorem c6_witness :
    CellCache.alloc c6State 1 = (4, { c6State with _cache := dictSet c6State._cache 1 [3] }) ∧
    CellCache.alloc c6State 0 =
      (9, { c6State with _cache := dictSet c6State._cache 0 [],
                          nextId := 10,
                          log := c6State.log ++ [Eff.renderTemplateEv 0 9] }) ∧
    CacheOp.rOp 1 4 ∈ [CacheOp.rOp 1 4] :=
  ⟨(c6_alloc_release c6State 1 4 [3]).1 (by decide),
    (c6_alloc_release c6State 0 9 []).2.1 (by decide),
    (c6_alloc_release c6State 1 4 []).2.2.2 [CacheOp.rOp 1 4] (by decide)⟩

/-- C7: `insertInDOM` allocates a wrapper from the cache when none is bound;
it is a complete no-op (in particular no render callback) when the bound
wrapper's element already has a parent; otherwise it appends the element
when no sibling is given, or inserts it before the given sibling, and then
fires the render callback.  `removeFromDOM` is a no-op without a bound
wrapper and otherwise releases the wrapper back to the cache. -/
theorem c7_viewrow_insert_remove (vr : ViewRow) (s : ViewState) (aft : Option Wrapper)
    (w : Wrapper) :
    (vr.row = none →
      (ViewRow.insertInDOM vr s aft).1.row = some (CellCache.alloc s vr.templateId).1) ∧
    (vr.row = some w → w ∈ s.children → ViewRow.insertInDOM vr s aft = (vr, s)) ∧
    (vr.row = some w → w ∉ s.children → aft = none →
      ViewRow.insertInDOM vr s aft =
        (vr, { s with children := s.children ++ [w],
                      log := s.log ++ [Eff.renderRowEv w] })) ∧
    (∀ ref, vr.row = some w → w ∉ s.children → aft = some ref → ref ∈ s.children →
      ViewRow.insertInDOM vr s aft =
        (vr, { s with children := insertBeforeL s.children w ref,
                      log := s.log ++ [Eff.renderRowEv w] })) ∧
    (vr.row = none → ViewRow.removeFromDOM vr s = (vr, s)) ∧
    (vr.row = some w →
      ViewRow.removeFromDOM vr s =
        ({ vr with row := none }, CellCache.release s vr.templateId w)) := by
  refine ⟨?_, ?_, ?_, ?_, ?_, ?_⟩
  · intro h
    simp only [ViewRow.insertInDOM, h]
    split <;> rfl
  · intro h hmem
    simp [ViewRow.insertInDOM, h, hmem]
  · intro h hnm haft
    subst haft
    simp [ViewRow.insertInDOM, h, hnm]
  · intro ref h hnm haft href
    subst haft
    simp [ViewRow.insertInDOM, h, hnm, href]
  · intro h
    simp [ViewRow.removeFromDOM, h]
  · intro h
    simp [ViewRow.removeFromDOM, h]

/-- The view state of claim C7's witness: wrappers 5 and 9 attached. -/
def c7State : ViewState :=
  { _cache := [(0, [])], nextId := 0, children := [5, 9], log := [] }

/-- C7 (witness): inserting an already-attached row is a no-op, and removing
a bound row releases its wrapper. -/
theorem c7_witness :
    ViewRow.insertInDOM ⟨some 5, 0⟩ c7State none = (⟨some 5, 0⟩, c7State) ∧
    ViewRow.removeFromDOM ⟨some 9, 0⟩ c7State =
      (⟨none, 0⟩, CellCache.release c7State 0 9) :=
  ⟨(c7_viewrow_insert_remove ⟨some 5, 0⟩ c7State none 5).2.1 rfl (by decide),
    (c7_viewrow_insert_remove ⟨some 9, 0⟩ c7State none 9).2.2.2.2.2 rfl⟩

/-- C8: when the requested sibling is no longer in the container,
`insertInDOM` recovers locally: the element is appended at the end instead,
a warning is logged, the render callback still fires, and the call returns
normally (no error propagates to the render pass). -/
theorem c8_insert_fallback (vr : ViewRow) (s : ViewState) (w ref : Wrapper)
    (h : vr.row = some w) (hw : w ∉ s.children) (href : ref ∉ s.children) :
    ViewRow.insertInDOM vr s (some ref) =
      (vr, { s with children := s.children ++ [w],
                    log := s.log ++ [Eff.warnEv, Eff.renderRowEv w] }) := by
  simp [ViewRow.insertInDOM, h, hw, href]

/-- C8 (witness): the fallback on a concrete detached sibling. -/
theorem c8_witness :
    ViewRow.insertInDOM ⟨some 5, 0⟩ initialState (some 9) =
      (⟨some 5, 0⟩,
        { _cache := [(0, [])], nextId := 0, children := [5],
          log := [Eff.warnEv, Eff.renderRowEv 5] }) :=
  c8_insert_fallback ⟨some 5, 0⟩ initialState 5 9 rfl (by decide) (by decide)

/-- C9: because `ViewRow`'s constructor declares its second parameter as the
single identifier `privatemodel`, the `model` field is never assigned and
the constructor's read of `this.model.id` dereferences an undefined field,
so construction faults for every view context and model row. -/
theorem c9_constructor_never_initializes (m : RowModel) : ViewRow.construct m = none := rfl

/-- C10: `getCellAround` returns `undefined` for every element, so the
mouse-down, mouse-up, click and tap handlers resolve no target cell and
never invoke the corresponding controller callbacks, for every handler
context and event. -/
theorem c10_handlers_never_invoke_controller (cx : HandlerCtx) (e : MouseEv) (t : ℕ) :
    TableView.onMouseDown cx e = [] ∧ TableView.onMouseUp cx e = [] ∧
    TableView.onClick cx e = [] ∧ TableView.onTap t = [] := by
  refine ⟨?_, ?_, ?_, ?_⟩ <;>
    simp [TableView.onMouseDown, TableView.onMouseUp, TableView.onClick, TableView.onTap,
      TableView.getCellAround]

end TableSpec
